import Mathlib

/-!
Shallow embedding of the cryptographic authentication layer and the canonical
block / certificate data model of the linera protocol core
(`linera-base/src/crypto/secp256k1.rs`, `linera-base/src/crypto/signer.rs`,
`linera-chain/src/block.rs`), together with theorems settling the frozen
claims about it.

External dependencies (the secp256k1 curve library, the `hex` crate, serde
formats, the ChaCha pseudorandom generator) and repository code that is not
among the given sources (`CryptoHash::new`, the `Hashed` wrapper) are
modelled from the spec, each with a doc comment saying so; everything else is
translated directly from the sources.
-/

set_option maxRecDepth 8192

deriving instance DecidableEq for Except

namespace LineraSpec

/-! ## Canonical hashing (modelled from the spec) -/

/-- Modelled from the spec: `CryptoHash` (defined outside the given sources) is
the deterministic digest of a value serialized with its declared type name
embedded ahead of its field bytes.  It is idealized as the tagged byte stream
itself, i.e. a perfectly collision-free digest. -/
structure CryptoHash where
  typeName : String
  content : List Nat
deriving DecidableEq, Repr

/-- Modelled from the spec: a `BcsSignable` value as the hashing layer sees it,
namely its declared type name together with its canonical serialized field
bytes. -/
structure SignableValue where
  typeName : String
  content : List Nat
deriving DecidableEq, Repr

/-- Modelled from the spec: `CryptoHash::new` serializes the value with its
type name ahead of the field bytes and hashes the result; in the idealized
collision-free model the digest is that tagged byte stream. -/
def CryptoHash.new (v : SignableValue) : CryptoHash :=
  ⟨v.typeName, v.content⟩

/-! ## secp256k1 keys and signatures

The curve arithmetic itself is an external library (a spec non-goal), so keys
and ECDSA are idealized: a secret key is an abstract scalar, the public key is
derived from it by an injective map, and a signature verifies exactly against
the digest it was produced over and the public key of the signing secret. -/

/-- A secp256k1 secret key (`Secp256k1SecretKey(secp256k1::SecretKey)`);
the library scalar is modelled as an abstract natural number. -/
structure Secp256k1SecretKey where
  val : Nat
deriving DecidableEq, Repr

/-- A secp256k1 public key (`Secp256k1PublicKey(secp256k1::PublicKey)`);
the library point is modelled as an abstract natural number. -/
structure Secp256k1PublicKey where
  val : Nat
deriving DecidableEq, Repr

/-- `Secp256k1SecretKey::public`: derives the public key of a secret key.
Model of the external library derivation; injective by construction. -/
def Secp256k1SecretKey.public (sk : Secp256k1SecretKey) : Secp256k1PublicKey :=
  ⟨sk.val⟩

/-- A secp256k1 ECDSA signature (`Secp256k1Signature(secp256k1::ecdsa::Signature)`).
In the ideal model it records the digest it was produced over and the signing
secret scalar. -/
structure Secp256k1Signature where
  digest : CryptoHash
  signer : Nat
deriving DecidableEq, Repr

/-- `CryptoError` (`linera-base` crypto error type): the variants reachable
from the given sources. -/
inductive CryptoError where
  | InvalidSignature (error : String) (type_name : String)
  | IncorrectPublicKeySize (len : Nat)
deriving DecidableEq, Repr

/-- Model of the external library `verify_ecdsa`: succeeds exactly when the
signature was produced over this digest by the secret of this public key;
on failure the library reports its fixed error message. -/
def verifyEcdsa (msg : CryptoHash) (sig : Secp256k1Signature)
    (pk : Secp256k1PublicKey) : Except String Unit :=
  if sig.digest = msg ∧ Secp256k1SecretKey.public ⟨sig.signer⟩ = pk then
    .ok ()
  else
    .error "signature failed verification"

/-- `Secp256k1Signature::new`: serializes the value, hashes it to a digest and
signs the digest with the secret key. -/
def Secp256k1Signature.new (value : SignableValue) (secret : Secp256k1SecretKey) :
    Secp256k1Signature :=
  ⟨CryptoHash.new value, secret.val⟩

/-- `Secp256k1Signature::check`: recomputes the domain-separated digest and
verifies; failure carries the library error text and the declared type name. -/
def Secp256k1Signature.check (sig : Secp256k1Signature) (value : SignableValue)
    (author : Secp256k1PublicKey) : Except CryptoError Unit :=
  match verifyEcdsa (CryptoHash.new value) sig author with
  | .ok () => .ok ()
  | .error e => .error (.InvalidSignature e value.typeName)

/-- The loop of `Secp256k1Signature::verify_batch`: verifies each pair against
the (already computed) digest, short-circuiting on the first failure. -/
def verifyBatchGo (msg : CryptoHash) (typeName : String) :
    List (Secp256k1PublicKey × Secp256k1Signature) → Except CryptoError Unit
  | [] => .ok ()
  | (author, signature) :: rest =>
    match verifyEcdsa msg signature author with
    | .ok () => verifyBatchGo msg typeName rest
    | .error e => .error (.InvalidSignature e typeName)

/-- `Secp256k1Signature::verify_batch`: computes the digest once and verifies
every pair against it. -/
def Secp256k1Signature.verify_batch (value : SignableValue)
    (votes : List (Secp256k1PublicKey × Secp256k1Signature)) :
    Except CryptoError Unit :=
  verifyBatchGo (CryptoHash.new value) value.typeName votes

/-! ## Signer and InMemSigner (`linera-base/src/crypto/signer.rs`)

The account-level key types (`AccountSecretKey` etc.) live outside the given
sources; they are modelled by the secp256k1 types above.  The signer state is
modelled single-threadedly: the `Arc<RwLock<..>>` wrapper only guards
concurrent access and does not change the sequential semantics embedded
here. -/

/-- `AccountOwner`: opaque identifier of an account / key holder. -/
abbrev AccountOwner := Nat

abbrev AccountSecretKey := Secp256k1SecretKey

abbrev AccountPublicKey := Secp256k1PublicKey

abbrev AccountSignature := Secp256k1Signature

/-- Model of `AccountOwner::from(AccountPublicKey)` (defined outside the given
sources): an opaque owner identifier derived injectively from the public
key. -/
def AccountOwner.fromPublicKey (pk : AccountPublicKey) : AccountOwner :=
  pk.val

/-- Model of `AccountSecretKey::sign_prehash` (defined outside the given
sources): signs an already-computed digest with the secret key. -/
def AccountSecretKey.sign_prehash (sk : AccountSecretKey) (value : CryptoHash) :
    AccountSignature :=
  ⟨value, sk.val⟩

/-- `BTreeMap<AccountOwner, AccountSecretKey>`: modelled as an association
list kept sorted by owner, with insert-or-replace. -/
abbrev KeyMap := List (AccountOwner × AccountSecretKey)

/-- `BTreeMap::get`. -/
def mapGet : KeyMap → AccountOwner → Option AccountSecretKey
  | [], _ => none
  | (k, v) :: rest, o => if k = o then some v else mapGet rest o

/-- `BTreeMap::insert` (sorted insert-or-replace). -/
def mapInsert : KeyMap → AccountOwner → AccountSecretKey → KeyMap
  | [], o, s => [(o, s)]
  | (k, v) :: rest, o, s =>
    if o < k then (o, s) :: (k, v) :: rest
    else if o = k then (o, s) :: rest
    else (k, v) :: mapInsert rest o s

/-- `BTreeMap::contains_key`. -/
def mapContains (m : KeyMap) (o : AccountOwner) : Bool :=
  (mapGet m o).isSome

/-- Modelled from the spec: the value stream of the deterministic pseudorandom
generator (`Box<dyn CryptoRng>` built from an optional `u64` seed, outside the
given sources).  The stream is a deterministic function of the seed and of the
position in the stream; `none` (the operating-system generator) is modelled as
a distinguished stream. -/
def prngValue : Option Nat → Nat → Nat
  | some seed, pos => Nat.pair (seed + 1) pos
  | none, pos => Nat.pair 0 pos

/-- `RngState`: the live PRNG object (modelled by its seed and current stream
position) plus the fields kept around for deterministic reconstruction of the
RNG across the persistence boundary. -/
structure RngState where
  initial_prng_seed : Option Nat
  position : Nat
  keys_generated : Nat
deriving DecidableEq, Repr

/-- `RngState::new`: rebuilds the PRNG from the seed and replays
`keys_generated` dummy draws, leaving the stream at position
`keys_generated`. -/
def RngState.new (prng_seed : Option Nat) (keys_generated : Nat) : RngState :=
  { initial_prng_seed := prng_seed
    position := keys_generated
    keys_generated := keys_generated }

/-- `InMemSignerInner`: the keyring plus the RNG state. -/
structure InMemSignerInner where
  keys : KeyMap
  rng_state : RngState
deriving DecidableEq, Repr

/-- `InMemSignerInner::new`: empty keyring, fresh RNG state. -/
def InMemSignerInner.new (prng_seed : Option Nat) : InMemSignerInner :=
  { keys := [], rng_state := RngState.new prng_seed 0 }

/-- `InMemSigner::generate_new`: draws a secret key from the signer RNG
(`AccountSecretKey::generate_from`, modelled as consuming one stream value -
the consumption rate the replay loop in `RngState::new` assumes), evaluates
`keys_generated.checked_add(1)` WITHOUT writing the sum back to the field
(the source drops the result of `checked_add`), derives public key and owner,
and inserts the pair into the keyring. -/
def InMemSigner.generate_new (s : InMemSignerInner) :
    AccountPublicKey × InMemSignerInner :=
  let secret : AccountSecretKey :=
    ⟨prngValue s.rng_state.initial_prng_seed s.rng_state.position⟩
  let _checkedSum := s.rng_state.keys_generated + 1
  let public := secret.public
  let owner := AccountOwner.fromPublicKey public
  (public,
    { keys := mapInsert s.keys owner secret
      rng_state := { s.rng_state with position := s.rng_state.position + 1 } })

/-- The serialized form of `InMemSignerInner` (the `Inner` helper struct of its
`Serialize` impl): the keyring entries, the original seed, and the recorded
draw counter.  The per-secret JSON encoding used by the source is an exact
round-trip and is modelled as the identity. -/
structure SerializedSigner where
  keys : List (AccountOwner × AccountSecretKey)
  prng_seed : Option Nat
  keys_generated : Nat
deriving DecidableEq, Repr

/-- `impl Serialize for InMemSignerInner`: records the actual keys, the
original seed and the draw counter. -/
def InMemSignerInner.serialize (s : InMemSignerInner) : SerializedSigner :=
  { keys := s.keys
    prng_seed := s.rng_state.initial_prng_seed
    keys_generated := s.rng_state.keys_generated }

/-- `impl Deserialize for InMemSignerInner`: restores the keys and rebuilds
the RNG state with `RngState::new(prng_seed, keys_generated)`. -/
def InMemSignerInner.deserialize (s : SerializedSigner) : InMemSignerInner :=
  { keys := s.keys
    rng_state := RngState.new s.prng_seed s.keys_generated }

/-- `impl Signer for InMemSigner`, `sign`: empty result when the owner is
unknown, otherwise a signature over the prehashed value. -/
def InMemSigner.sign (s : InMemSignerInner) (owner : AccountOwner)
    (value : CryptoHash) : Option AccountSignature :=
  (mapGet s.keys owner).map (fun secret => secret.sign_prehash value)

/-- `impl Signer for InMemSigner`, `get_public`: empty result when the owner
is unknown, otherwise the public key of the stored secret. -/
def InMemSigner.get_public (s : InMemSignerInner) (owner : AccountOwner) :
    Option AccountPublicKey :=
  (mapGet s.keys owner).map (fun secret => secret.public)

/-- `impl Signer for InMemSigner`, `contains_key`. -/
def InMemSigner.contains_key (s : InMemSignerInner) (owner : AccountOwner) : Bool :=
  mapContains s.keys owner

/-! ## Block model (`linera-chain/src/block.rs`)

External identifier and payload types (`ChainId`, `Operation`,
`OutgoingMessage`, ...) are opaque to the given sources and are modelled as
opaque numeric payloads. -/

abbrev ChainId := Nat

abbrev BlockHeight := Nat

abbrev Epoch := Nat

abbrev Timestamp := Nat

/-- `Owner` (external identifier type). -/
abbrev BlockOwner := Nat

/-- `MessageId`: (chain id, height, flat message index) identifying one
outgoing message; `index` is a `u32` in the source. -/
structure MessageId where
  chain_id : ChainId
  height : BlockHeight
  index : Nat
deriving DecidableEq, Repr

/-- `MessageAction` of an incoming bundle (external `linera-chain` type). -/
inductive MessageAction where
  | Accept
  | Reject
deriving DecidableEq, Repr

/-- `OutgoingMessage` (external type): opaque payload. -/
structure OutgoingMessage where
  payload : Nat
deriving DecidableEq, Repr

/-- `IncomingBundle` (external type): the parts the given sources read - the
posted messages of the bundle and the accept/reject action. -/
structure IncomingBundle where
  bundleMessages : List Nat
  action : MessageAction
deriving DecidableEq, Repr

/-- `Operation` (external `linera-execution` type): opaque payload. -/
structure Operation where
  payload : Nat
deriving DecidableEq, Repr

/-- `OracleResponse` (external type): opaque payload. -/
structure OracleResponse where
  payload : Nat
deriving DecidableEq, Repr

/-- `EventRecord` (external type): opaque payload. -/
structure EventRecord where
  payload : Nat
deriving DecidableEq, Repr

structure BlockHeader where
  version : Nat
  chain_id : ChainId
  epoch : Epoch
  height : BlockHeight
  timestamp : Timestamp
  state_hash : CryptoHash
  previous_block_hash : Option CryptoHash
  authenticated_signer : Option BlockOwner
  bundles_hash : CryptoHash
  operations_hash : CryptoHash
  messages_hash : CryptoHash
  oracle_responses_hash : CryptoHash
  events_hash : CryptoHash
deriving DecidableEq, Repr

structure BlockBody where
  incoming_bundles : List IncomingBundle
  operations : List Operation
  messages : List (List OutgoingMessage)
  oracle_responses : List (List OracleResponse)
  events : List (List EventRecord)
deriving DecidableEq, Repr

structure Block where
  header : BlockHeader
  body : BlockBody
deriving DecidableEq, Repr

/-- The `usize` bound of the 64-bit target, `2 ^ 64`. -/
def USIZE : Nat := 18446744073709551616

/-- The `u32` bound, `2 ^ 32`. -/
def U32 : Nat := 4294967296

/-- `BlockHeader::message_id`: the `MessageId` of the `index`th outgoing
message of this block. -/
def BlockHeader.message_id (h : BlockHeader) (index : Nat) : MessageId :=
  { chain_id := h.chain_id, height := h.height, index := index }

/-- `Block::message_id_for_operation`: maps (operation index, message index)
to the block-flat message id, `None` when out of range or when a
machine-width conversion (`usize` checked add, `u32` try-from, `u32` checked
add) fails. -/
def Block.message_id_for_operation (b : Block) (operation_index : Nat)
    (message_index : Nat) : Option MessageId :=
  let transaction_index := b.body.incoming_bundles.length + operation_index
  if USIZE ≤ transaction_index then none
  else
    match b.body.messages.get? transaction_index with
    | none => none
    | some txnMessages =>
      if U32 ≤ txnMessages.length then none
      else if txnMessages.length ≤ message_index then none
      else
        let first_message := ((b.body.messages.take transaction_index).map List.length).sum
        if U32 ≤ first_message then none
        else if U32 ≤ first_message + message_index then none
        else some (b.header.message_id (first_message + message_index))

/-- The loop of `Block::message_by_id`: look the running index up in each
transaction's message list, subtracting that list's length when the lookup
fails. -/
def messageByIdGo : List (List OutgoingMessage) → Nat → Option OutgoingMessage
  | [], _ => none
  | messages :: rest, index =>
    match messages.get? index with
    | some message => some message
    | none => messageByIdGo rest (index - messages.length)

/-- `Block::message_by_id`: validates chain id and height against the header,
then walks the per-transaction message lists with a running index.
(`usize::try_from` of a `u32` index cannot fail on the 64-bit target.) -/
def Block.message_by_id (b : Block) (message_id : MessageId) :
    Option OutgoingMessage :=
  if b.header.chain_id ≠ message_id.chain_id ∨ b.header.height ≠ message_id.height
  then none
  else messageByIdGo b.body.messages message_id.index

/-- Panic-instrumented version of the `message_by_id` loop: the outer `none`
signals that the `index -= messages.len()` subtraction would underflow (a
`usize` underflow panic), `some r` that the loop completes normally with
result `r`. -/
def messageByIdGoChecked : List (List OutgoingMessage) → Nat →
    Option (Option OutgoingMessage)
  | [], _ => some none
  | messages :: rest, index =>
    match messages.get? index with
    | some message => some (some message)
    | none =>
      if index < messages.length then none
      else messageByIdGoChecked rest (index - messages.length)

/-- Panic-instrumented `Block::message_by_id`. -/
def Block.message_by_id_checked (b : Block) (message_id : MessageId) :
    Option (Option OutgoingMessage) :=
  if b.header.chain_id ≠ message_id.chain_id ∨ b.header.height ≠ message_id.height
  then some none
  else messageByIdGoChecked b.body.messages message_id.index

/-- `Block::has_only_rejected_messages`. -/
def Block.has_only_rejected_messages (b : Block) : Bool :=
  b.body.operations.isEmpty &&
    b.body.incoming_bundles.all (fun message => message.action == MessageAction.Reject)

/-- Total number of outgoing messages of a block (length of the flattened
per-transaction message lists). -/
def Block.totalMessages (b : Block) : Nat :=
  (b.body.messages.map List.length).sum

/-! ## Canonical block serialization (modelled from the spec)

The canonical (BCS) byte serialization used by the hashing layer is external
to the given sources; it is modelled as an injective numeric code of the
block's fields rendered as base-256 digits. -/

/-- Injective numeric code of a string, via its character codes. -/
def natOfString (s : String) : Nat :=
  Encodable.encode (s.toList.map Char.toNat)

/-- Injective numeric code of a `CryptoHash`. -/
def natOfHash (h : CryptoHash) : Nat :=
  Nat.pair (natOfString h.typeName) (Encodable.encode h.content)

/-- Numeric code of an optional value. -/
def natOfOption (f : α → Nat) : Option α → Nat
  | none => 0
  | some a => f a + 1

/-- Modelled from the spec: canonical serialization of a block header, as an
injective numeric code of its thirteen fields. -/
def natOfHeader (h : BlockHeader) : Nat :=
  Nat.pair h.version (Nat.pair h.chain_id (Nat.pair h.epoch (Nat.pair h.height
    (Nat.pair h.timestamp (Nat.pair (natOfHash h.state_hash)
      (Nat.pair (natOfOption natOfHash h.previous_block_hash)
        (Nat.pair (natOfOption id h.authenticated_signer)
          (Nat.pair (natOfHash h.bundles_hash)
            (Nat.pair (natOfHash h.operations_hash)
              (Nat.pair (natOfHash h.messages_hash)
                (Nat.pair (natOfHash h.oracle_responses_hash)
                  (natOfHash h.events_hash))))))))))))

/-- Numeric code of an incoming bundle. -/
def natOfBundle (ib : IncomingBundle) : Nat :=
  Nat.pair (Encodable.encode ib.bundleMessages)
    (match ib.action with | .Accept => 0 | .Reject => 1)

/-- Modelled from the spec: canonical serialization of a block body, as an
injective numeric code of its five sections. -/
def natOfBody (body : BlockBody) : Nat :=
  Nat.pair (Encodable.encode (body.incoming_bundles.map natOfBundle))
    (Nat.pair (Encodable.encode (body.operations.map Operation.payload))
      (Nat.pair
        (Encodable.encode
          (body.messages.map (fun l => Encodable.encode (l.map OutgoingMessage.payload))))
        (Nat.pair
          (Encodable.encode
            (body.oracle_responses.map
              (fun l => Encodable.encode (l.map OracleResponse.payload))))
          (Encodable.encode
            (body.events.map (fun l => Encodable.encode (l.map EventRecord.payload)))))))

/-- Modelled from the spec: the canonical byte serialization of a block. -/
def encodeBlock (b : Block) : List Nat :=
  Nat.digits 256 (Nat.pair (natOfHeader b.header) (natOfBody b.body))

/-! ## Certificate values (`linera-chain/src/block.rs`) and the content-hash
wrapper (`Hashed`, from `linera-base/src/hashed.rs`, outside the given
sources; modelled from the spec) -/

/-- Modelled from the spec: `Hashed<T>` is an immutable (value, hash) pair. -/
structure Hashed (α : Type) where
  value : α
  hash : CryptoHash
deriving DecidableEq, Repr

/-- Modelled from the spec: `Hashed::unchecked_new` accepts a caller-asserted
hash without recomputation. -/
def Hashed.unchecked_new (value : α) (hash : CryptoHash) : Hashed α :=
  ⟨value, hash⟩

/-- The `BcsHashable` view of a `Block` (`impl BcsHashable for Block`): its
type name ahead of its canonical field bytes. -/
def Block.signable (b : Block) : SignableValue :=
  ⟨"Block", encodeBlock b⟩

/-- Modelled from the spec: `Hashed::new` for a `Block` computes and stores
the canonical hash. -/
def Hashed.newBlock (b : Block) : Hashed Block :=
  ⟨b, CryptoHash.new b.signable⟩

/-- `ValidatedBlock`: wrapper around an executed block that has been
validated. -/
structure ValidatedBlock where
  executed_block : Hashed Block
deriving DecidableEq, Repr

/-- `ValidatedBlock::new`. -/
def ValidatedBlock.new (block : Block) : ValidatedBlock :=
  ⟨Hashed.newBlock block⟩

/-- `ConfirmedBlock`: wrapper around an executed block that has been
confirmed. -/
structure ConfirmedBlock where
  executed_block : Hashed Block
deriving DecidableEq, Repr

/-- `ConfirmedBlock::new`. -/
def ConfirmedBlock.new (executed_block : Block) : ConfirmedBlock :=
  ⟨Hashed.newBlock executed_block⟩

/-- `Timeout`: (chain id, height, epoch). -/
structure Timeout where
  chain_id : ChainId
  height : BlockHeight
  epoch : Epoch
deriving DecidableEq, Repr

/-- A byte content declared as a `ValidatedBlock` (`impl BcsHashable for
ValidatedBlock` embeds the type name `"ValidatedBlock"` ahead of the
serialized contents). -/
def validatedTagged (bytes : List Nat) : SignableValue :=
  ⟨"ValidatedBlock", bytes⟩

/-- A byte content declared as a `ConfirmedBlock` (`impl BcsHashable for
ConfirmedBlock`). -/
def confirmedTagged (bytes : List Nat) : SignableValue :=
  ⟨"ConfirmedBlock", bytes⟩

/-- A byte content declared as a `Timeout` (`impl BcsHashable for Timeout`). -/
def timeoutTagged (bytes : List Nat) : SignableValue :=
  ⟨"Timeout", bytes⟩

/-- The `BcsHashable` view of a `ValidatedBlock`: the `Hashed` wrapper
serializes its inner value (modelled from the spec), so the serialized
contents are the canonical bytes of the contained block. -/
def ValidatedBlock.signable (vb : ValidatedBlock) : SignableValue :=
  validatedTagged (encodeBlock vb.executed_block.value)

/-- The `BcsHashable` view of a `ConfirmedBlock`. -/
def ConfirmedBlock.signable (cb : ConfirmedBlock) : SignableValue :=
  confirmedTagged (encodeBlock cb.executed_block.value)

/-- `ChainError`: the variants reachable from the given sources. -/
inductive ChainError where
  | CertificateValueHashMismatch (expected : CryptoHash) (actual : CryptoHash)
  | BlockProposalTooLarge
deriving DecidableEq, Repr

/-- `ConfirmedBlock::with_hash_unchecked`. -/
def ConfirmedBlock.with_hash_unchecked (cb : ConfirmedBlock) (hash : CryptoHash) :
    Hashed ConfirmedBlock :=
  Hashed.unchecked_new cb hash

/-- `ConfirmedBlock::with_hash` (private): recomputes the canonical hash of
the value and pairs the two. -/
def ConfirmedBlock.with_hash (cb : ConfirmedBlock) : Hashed ConfirmedBlock :=
  Hashed.unchecked_new cb (CryptoHash.new cb.signable)

/-- `ConfirmedBlock::with_hash_checked`: recomputes the canonical hash and
fails with a mismatch error (carrying the claimed and the recomputed hash)
when it differs from the claimed one. -/
def ConfirmedBlock.with_hash_checked (cb : ConfirmedBlock) (hash : CryptoHash) :
    Except ChainError (Hashed ConfirmedBlock) :=
  let hashed_certificate_value := cb.with_hash
  if hashed_certificate_value.hash = hash then
    .ok hashed_certificate_value
  else
    .error (.CertificateValueHashMismatch hash hashed_certificate_value.hash)

/-! ## Serde encodings (`secp256k1.rs` `Serialize`/`Deserialize` impls)

The `hex` crate and the library byte encodings (`PublicKey::serialize` /
`from_slice`, `Signature::serialize_der` / `from_der`) are external; hex is
modelled exactly, the library encodings as injective byte encodings. -/

/-- Lowercase hex digit character (model of the `hex` crate encoder): values
below ten map to the decimal digit characters, ten to fifteen to the
lowercase letters starting at `a` (code 97). -/
def hexDigitChar (n : Nat) : Char :=
  if n < 10 then Char.ofNat (48 + n) else Char.ofNat (87 + min n 15)

/-- Hex digit value (the `hex` crate decoder accepts both letter cases):
decimal digit characters, lowercase letters up to `f`, uppercase letters up
to `F`. -/
def hexDigitVal (c : Char) : Option Nat :=
  if 48 ≤ c.toNat ∧ c.toNat ≤ 57 then some (c.toNat - 48)
  else if 97 ≤ c.toNat ∧ c.toNat ≤ 102 then some (c.toNat - 87)
  else if 65 ≤ c.toNat ∧ c.toNat ≤ 70 then some (c.toNat - 55)
  else none

/-- `hex::encode`: two lowercase digits per byte. -/
def hexEncode (bytes : List Nat) : String :=
  String.mk (bytes.flatMap (fun b => [hexDigitChar (b / 16), hexDigitChar (b % 16)]))

/-- The loop of `hex::decode`: two characters per byte, failing on an odd
length or a non-hex character. -/
def hexDecodeGo : List Char → Option (List Nat)
  | [] => some []
  | [_] => none
  | c1 :: c2 :: rest => do
    let hi ← hexDigitVal c1
    let lo ← hexDigitVal c2
    let tail ← hexDecodeGo rest
    pure ((16 * hi + lo) :: tail)

/-- `hex::decode`. -/
def hexDecode (s : String) : Option (List Nat) :=
  hexDecodeGo s.toList

/-- Whether every character of the string is a lowercase hexadecimal digit. -/
def isLowercaseHex (s : String) : Bool :=
  s.toList.all (fun c => ("0123456789abcdef".toList).contains c)

/-- Model of the external library `PublicKey::serialize`: the 33-byte compact
encoding, as base-256 digits of the key value padded to 33 bytes. -/
def pkSerialize (pk : Secp256k1PublicKey) : List Nat :=
  Nat.digits 256 pk.val ++ List.replicate (33 - (Nat.digits 256 pk.val).length) 0

/-- Model of the external library `PublicKey::from_slice`: accepts exactly
33-byte strings (the curve-point validity check is idealized away). -/
def pkFromSlice (bytes : List Nat) : Option Secp256k1PublicKey :=
  if bytes.length = 33 then some ⟨Nat.ofDigits 256 bytes⟩ else none

/-- `impl Serialize for Secp256k1PublicKey`, human-readable branch: the hex
string of the 33-byte compact key. -/
def Secp256k1PublicKey.serializeHuman (pk : Secp256k1PublicKey) : String :=
  hexEncode (pkSerialize pk)

/-- `impl Deserialize for Secp256k1PublicKey`, human-readable branch: read a
string, hex-decode it, then `PublicKey::from_slice`; each failure surfaces as
a custom serde error. -/
def Secp256k1PublicKey.deserializeHuman (s : String) :
    Except String Secp256k1PublicKey :=
  match hexDecode s with
  | none => .error "hex decode error"
  | some bytes =>
    match pkFromSlice bytes with
    | none => .error "malformed public key"
    | some pk => .ok pk

/-- Model of a compact (non-human-readable) serde data format: the value
shapes the given impls use. -/
inductive BinValue where
  | newtypeStruct (name : String) (inner : BinValue)
  | raw (bytes : List Nat)
deriving DecidableEq, Repr

/-- `impl Serialize for Secp256k1PublicKey`, binary branch:
`serialize_newtype_struct("Secp256k1PublicKey", &self.0)`, the library key
serializing to its raw bytes. -/
def Secp256k1PublicKey.serializeBinary (pk : Secp256k1PublicKey) : BinValue :=
  .newtypeStruct "Secp256k1PublicKey" (.raw (pkSerialize pk))

/-- `impl Deserialize for Secp256k1PublicKey`, binary branch: a newtype
struct named `Secp256k1PublicKey` wrapping the raw library key. -/
def Secp256k1PublicKey.deserializeBinary (v : BinValue) :
    Except String Secp256k1PublicKey :=
  match v with
  | .newtypeStruct name (.raw bytes) =>
    if name = "Secp256k1PublicKey" then
      match pkFromSlice bytes with
      | none => .error "malformed public key"
      | some pk => .ok pk
    else .error "expected newtype struct Secp256k1PublicKey"
  | _ => .error "expected newtype struct Secp256k1PublicKey"

/-- Partial inverse of `natOfString`. -/
def stringOfNat (n : Nat) : Option String :=
  (Encodable.decode n : Option (List Nat)).map (fun l => String.mk (l.map Char.ofNat))

/-- Partial inverse of `natOfHash`. -/
def hashOfNat (n : Nat) : Option CryptoHash := do
  let tn ← stringOfNat (Nat.unpair n).1
  let content ← (Encodable.decode (Nat.unpair n).2 : Option (List Nat))
  pure ⟨tn, content⟩

/-- Model of the external library `Signature::serialize_der`: an injective
self-contained byte encoding of the signature. -/
def sigSerializeDer (sig : Secp256k1Signature) : List Nat :=
  Nat.digits 256 (Nat.pair (natOfHash sig.digest) sig.signer)

/-- Model of the external library `Signature::from_der`. -/
def sigFromDer (bytes : List Nat) : Option Secp256k1Signature := do
  let n := Nat.ofDigits 256 bytes
  let h ← hashOfNat (Nat.unpair n).1
  pure ⟨h, (Nat.unpair n).2⟩

/-- `impl Serialize for Secp256k1Signature`, human-readable branch: the hex
string of the DER signature bytes. -/
def Secp256k1Signature.serializeHuman (sig : Secp256k1Signature) : String :=
  hexEncode (sigSerializeDer sig)

/-- `impl Deserialize for Secp256k1Signature`, human-readable branch: read a
string, hex-decode it, then `Signature::from_der`. -/
def Secp256k1Signature.deserializeHuman (s : String) :
    Except String Secp256k1Signature :=
  match hexDecode s with
  | none => .error "hex decode error"
  | some bytes =>
    match sigFromDer bytes with
    | none => .error "malformed signature"
    | some sig => .ok sig

/-- `impl Serialize for Secp256k1Signature`, binary branch:
`serialize_newtype_struct("Signature", &self.0)`. -/
def Secp256k1Signature.serializeBinary (sig : Secp256k1Signature) : BinValue :=
  .newtypeStruct "Signature" (.raw (sigSerializeDer sig))

/-- `impl Deserialize for Secp256k1Signature`, binary branch: a newtype
struct named `Signature` wrapping the raw library signature. -/
def Secp256k1Signature.deserializeBinary (v : BinValue) :
    Except String Secp256k1Signature :=
  match v with
  | .newtypeStruct name (.raw bytes) =>
    if name = "Signature" then
      match sigFromDer bytes with
      | none => .error "malformed signature"
      | some sig => .ok sig
    else .error "expected newtype struct Signature"
  | _ => .error "expected newtype struct Signature"

/-! ## Concrete sample values used by witnesses -/

/-- A small concrete block header. -/
def sampleHeader : BlockHeader :=
  { version := 0, chain_id := 1, epoch := 0, height := 2, timestamp := 0
    state_hash := ⟨"", []⟩, previous_block_hash := none
    authenticated_signer := none
    bundles_hash := ⟨"", []⟩, operations_hash := ⟨"", []⟩
    messages_hash := ⟨"", []⟩, oracle_responses_hash := ⟨"", []⟩
    events_hash := ⟨"", []⟩ }

/-- A small concrete block: one incoming bundle, one operation, with message
lists `[[10], [20, 30]]` (so the operation's transaction has two outgoing
messages). -/
def sampleBlock : Block :=
  { header := sampleHeader
    body := { incoming_bundles := [⟨[], MessageAction.Accept⟩]
              operations := [⟨7⟩]
              messages := [[⟨10⟩], [⟨20⟩, ⟨30⟩]]
              oracle_responses := [[], []]
              events := [[], []] } }

/-! # Theorems -/

/-! ## C9 -/

/-- C9: `has_only_rejected_messages` returns `true` exactly when the block's
operations list is empty and every incoming bundle's action is `Reject`; in
particular it is `true` for a block with no operations and no incoming
bundles. -/
theorem has_only_rejected_messages_iff (b : Block) :
    b.has_only_rejected_messages = true ↔
      b.body.operations = [] ∧
        ∀ ib ∈ b.body.incoming_bundles, ib.action = MessageAction.Reject := by
  simp [Block.has_only_rejected_messages, List.isEmpty_iff, List.all_eq_true]

/-! ## C8 -/

/-- C8: `sign` and `get_public` return an empty result - not an error -
exactly when `contains_key` is false, and return a value exactly when
`contains_key` is true. -/
theorem sign_get_public_empty_iff (s : InMemSignerInner) (owner : AccountOwner)
    (value : CryptoHash) :
    (InMemSigner.sign s owner value = none ↔
      InMemSigner.contains_key s owner = false) ∧
    (InMemSigner.get_public s owner = none ↔
      InMemSigner.contains_key s owner = false) ∧
    ((InMemSigner.sign s owner value).isSome = true ↔
      InMemSigner.contains_key s owner = true) ∧
    ((InMemSigner.get_public s owner).isSome = true ↔
      InMemSigner.contains_key s owner = true) := by
  unfold InMemSigner.sign InMemSigner.get_public InMemSigner.contains_key
    mapContains
  cases mapGet s.keys owner <;> simp

/-! ## C4 -/

/-- C4: `with_hash_checked` returns `Ok` exactly when the claimed hash equals
the recomputed canonical hash of the value, and otherwise returns the
hash-mismatch error carrying the claimed hash as `expected` and the
recomputed hash as `actual`. -/
theorem with_hash_checked_spec (cb : ConfirmedBlock) (h : CryptoHash) :
    cb.with_hash_checked h =
      if h = CryptoHash.new cb.signable then
        .ok (Hashed.unchecked_new cb (CryptoHash.new cb.signable))
      else
        .error (ChainError.CertificateValueHashMismatch h
          (CryptoHash.new cb.signable)) := by
  unfold ConfirmedBlock.with_hash_checked ConfirmedBlock.with_hash
    Hashed.unchecked_new
  by_cases heq : CryptoHash.new cb.signable = h
  · subst heq; simp
  · rw [if_neg heq, if_neg (fun hh => heq hh.symm)]

/-! ## C3 -/

/-- C3: identical underlying bytes hash differently when declared as
`ValidatedBlock`, `ConfirmedBlock` or `Timeout`, and a signature produced for
the bytes under one declared certificate type fails verification under the
other declared type (with an authentication error carrying the library
message and the declared type name), while verifying under its own type. -/
theorem certificate_domain_separation (bytes : List Nat) (sk : Secp256k1SecretKey) :
    CryptoHash.new (validatedTagged bytes) ≠ CryptoHash.new (confirmedTagged bytes) ∧
    CryptoHash.new (validatedTagged bytes) ≠ CryptoHash.new (timeoutTagged bytes) ∧
    CryptoHash.new (confirmedTagged bytes) ≠ CryptoHash.new (timeoutTagged bytes) ∧
    (Secp256k1Signature.new (validatedTagged bytes) sk).check (validatedTagged bytes)
        sk.public = .ok () ∧
    (Secp256k1Signature.new (validatedTagged bytes) sk).check (confirmedTagged bytes)
        sk.public =
      .error (.InvalidSignature "signature failed verification" "ConfirmedBlock") ∧
    (Secp256k1Signature.new (confirmedTagged bytes) sk).check (validatedTagged bytes)
        sk.public =
      .error (.InvalidSignature "signature failed verification" "ValidatedBlock") := by
  have hvc : ("ValidatedBlock" : String) ≠ "ConfirmedBlock" := by decide
  have hvt : ("ValidatedBlock" : String) ≠ "Timeout" := by decide
  have hct : ("ConfirmedBlock" : String) ≠ "Timeout" := by decide
  refine ⟨?_, ?_, ?_, ?_, ?_, ?_⟩
  · exact fun hcontra => hvc (congrArg CryptoHash.typeName hcontra)
  · exact fun hcontra => hvt (congrArg CryptoHash.typeName hcontra)
  · exact fun hcontra => hct (congrArg CryptoHash.typeName hcontra)
  · unfold Secp256k1Signature.check Secp256k1Signature.new verifyEcdsa
    rw [if_pos ⟨rfl, rfl⟩]
  · unfold Secp256k1Signature.check Secp256k1Signature.new verifyEcdsa
    rw [if_neg (fun hcontra => hvc (congrArg CryptoHash.typeName hcontra.1))]
    rfl
  · unfold Secp256k1Signature.check Secp256k1Signature.new verifyEcdsa
    rw [if_neg (fun hcontra => hvc (congrArg CryptoHash.typeName hcontra.1).symm)]
    rfl

/-! ## C2 -/

/-- The batch loop succeeds exactly when every pair verifies against the
digest. -/
theorem verifyBatchGo_ok_iff (msg : CryptoHash) (tn : String)
    (votes : List (Secp256k1PublicKey × Secp256k1Signature)) :
    verifyBatchGo msg tn votes = .ok () ↔
      ∀ p ∈ votes, verifyEcdsa msg p.2 p.1 = .ok () := by
  induction votes with
  | nil => simp [verifyBatchGo]
  | cons p rest ih =>
    obtain ⟨author, signature⟩ := p
    unfold verifyBatchGo
    cases hv : verifyEcdsa msg signature author with
    | ok u => cases u; simp [hv, ih]
    | error e => simp [hv]

/-- The batch loop stops at the first failing pair and returns its error,
whatever comes after it. -/
theorem verifyBatchGo_first_error (msg : CryptoHash) (tn : String)
    (l1 l2 : List (Secp256k1PublicKey × Secp256k1Signature))
    (author : Secp256k1PublicKey) (sig : Secp256k1Signature) (e : String)
    (h1 : ∀ p ∈ l1, verifyEcdsa msg p.2 p.1 = .ok ())
    (h2 : verifyEcdsa msg sig author = .error e) :
    verifyBatchGo msg tn (l1 ++ (author, sig) :: l2) =
      .error (.InvalidSignature e tn) := by
  induction l1 with
  | nil => unfold verifyBatchGo; simp [h2]
  | cons p rest ih =>
    obtain ⟨a, s⟩ := p
    have hp : verifyEcdsa msg s a = .ok () := h1 (a, s) (List.mem_cons_self _ _)
    rw [List.cons_append]
    unfold verifyBatchGo
    simp only [hp]
    exact ih (fun q hq => h1 q (List.mem_cons_of_mem _ hq))

/-- `check` succeeds exactly when the library verification of the recomputed
digest succeeds. -/
theorem check_ok_iff (sig : Secp256k1Signature) (value : SignableValue)
    (author : Secp256k1PublicKey) :
    sig.check value author = .ok () ↔
      verifyEcdsa (CryptoHash.new value) sig author = .ok () := by
  unfold Secp256k1Signature.check
  cases hv : verifyEcdsa (CryptoHash.new value) sig author with
  | ok u => cases u; simp
  | error e => simp

/-- A failing `check` is the library error wrapped with the declared type
name. -/
theorem check_error_elim (sig : Secp256k1Signature) (value : SignableValue)
    (author : Secp256k1PublicKey) (e : CryptoError)
    (h : sig.check value author = .error e) :
    ∃ s, verifyEcdsa (CryptoHash.new value) sig author = .error s ∧
      e = .InvalidSignature s value.typeName := by
  unfold Secp256k1Signature.check at h
  cases hv : verifyEcdsa (CryptoHash.new value) sig author with
  | ok u => cases u; rw [hv] at h; simp at h
  | error s => rw [hv] at h; simp at h; exact ⟨s, rfl, h.symm⟩

/-- C2 (amended): `verify_batch` succeeds iff `check` succeeds for every
pair; with a first failing pair it returns exactly the error that pair's
`check` produces, independently of the pairs after it (no later pair is
examined).  The returned error carries the library message and the declared
type name, but not the identity of the failing pair. -/
theorem verify_batch_spec (value : SignableValue)
    (votes : List (Secp256k1PublicKey × Secp256k1Signature)) :
    (Secp256k1Signature.verify_batch value votes = .ok () ↔
      ∀ p ∈ votes, Secp256k1Signature.check p.2 value p.1 = .ok ()) ∧
    (∀ l1 (author : Secp256k1PublicKey) (sig : Secp256k1Signature) l2 e,
      votes = l1 ++ (author, sig) :: l2 →
      (∀ p ∈ l1, Secp256k1Signature.check p.2 value p.1 = .ok ()) →
      Secp256k1Signature.check sig value author = .error e →
      Secp256k1Signature.verify_batch value votes = .error e) := by
  constructor
  · unfold Secp256k1Signature.verify_batch
    rw [verifyBatchGo_ok_iff]
    exact forall_congr' fun p => forall_congr' fun _ => (check_ok_iff p.2 value p.1).symm
  · intro l1 author sig l2 e hsplit hok herr
    obtain ⟨s, hv, he⟩ := check_error_elim sig value author e herr
    subst hsplit
    subst he
    unfold Secp256k1Signature.verify_batch
    exact verifyBatchGo_first_error _ _ l1 l2 author sig s
      (fun p hp => (check_ok_iff p.2 value p.1).mp (hok p hp)) hv

/-- Witness for C2: a batch with one good and then one bad pair returns the
bad pair's authentication error. -/
theorem verify_batch_spec_witness :
    Secp256k1Signature.verify_batch ⟨"TestString", [104]⟩
        [(⟨1⟩, Secp256k1Signature.new ⟨"TestString", [104]⟩ ⟨1⟩),
         (⟨2⟩, Secp256k1Signature.new ⟨"TestString", [104]⟩ ⟨1⟩)] =
      .error (.InvalidSignature "signature failed verification" "TestString") :=
  (verify_batch_spec ⟨"TestString", [104]⟩ _).2
    [(⟨1⟩, Secp256k1Signature.new ⟨"TestString", [104]⟩ ⟨1⟩)] ⟨2⟩
    (Secp256k1Signature.new ⟨"TestString", [104]⟩ ⟨1⟩) [] _
    rfl (by decide) (by decide)

/-- Counterexample for C2 as stated: two batches whose unique failing pairs
are different pairs produce identical error values, so the returned error
does not report which pair failed. -/
theorem verify_batch_error_does_not_identify_pair :
    Secp256k1Signature.verify_batch ⟨"TestString", [104]⟩
        [(⟨2⟩, Secp256k1Signature.new ⟨"TestString", [104]⟩ ⟨1⟩)] =
      Secp256k1Signature.verify_batch ⟨"TestString", [104]⟩
        [(⟨3⟩, Secp256k1Signature.new ⟨"TestString", [104]⟩ ⟨1⟩)] ∧
    (⟨2⟩ : Secp256k1PublicKey) ≠ ⟨3⟩ ∧
    Secp256k1Signature.verify_batch ⟨"TestString", [104]⟩
        [(⟨2⟩, Secp256k1Signature.new ⟨"TestString", [104]⟩ ⟨1⟩)] =
      .error (.InvalidSignature "signature failed verification" "TestString") := by
  decide

/-! ## C1 -/

/-- C1 is violated by the code: `generate_new` evaluates
`keys_generated.checked_add(1)` but never writes the sum back, so after one
generated key the serialized state still records draw-count 0, and the
signer deserialized from that state regenerates the first key instead of
continuing the stream with the second key, while an uninterrupted run from
the same seed produces a different (the second) key. -/
theorem generate_new_counter_never_incremented :
    ((InMemSignerInner.serialize
        (InMemSigner.generate_new (InMemSignerInner.new (some 42))).2).keys_generated
      = 0) ∧
    ((InMemSigner.generate_new (InMemSignerInner.deserialize
        (InMemSignerInner.serialize
          (InMemSigner.generate_new (InMemSignerInner.new (some 42))).2))).1
      = (InMemSigner.generate_new (InMemSignerInner.new (some 42))).1) ∧
    ((InMemSigner.generate_new
        (InMemSigner.generate_new (InMemSignerInner.new (some 42))).2).1
      ≠ (InMemSigner.generate_new (InMemSignerInner.new (some 42))).1) := by
  decide

/-! ## C10 -/

/-- The instrumented `message_by_id` loop never signals an underflow: the
subtraction is only reached when the indexed lookup failed, i.e. when the
running index is at least the current list's length. -/
theorem messageByIdGoChecked_eq (L : List (List OutgoingMessage)) (i : Nat) :
    messageByIdGoChecked L i = some (messageByIdGo L i) := by
  induction L generalizing i with
  | nil => rfl
  | cons hd tl ih =>
    unfold messageByIdGoChecked messageByIdGo
    cases h : hd.get? i with
    | some m => simp [h]
    | none =>
      have hlen : hd.length ≤ i := List.get?_eq_none.mp h
      simp only [h]
      rw [if_neg (Nat.not_lt.mpr hlen)]
      exact ih _

/-- C10: for every block and every message id - chain or height mismatches
and over-large flat indices included - `message_by_id` returns an `Option`
without panicking: the instrumented version, whose outer `none` would signal
an underflow of the running-index subtraction, always completes normally and
agrees with the plain function. -/
theorem message_by_id_no_panic (b : Block) (mid : MessageId) :
    b.message_by_id_checked mid = some (b.message_by_id mid) := by
  unfold Block.message_by_id_checked Block.message_by_id
  by_cases hguard : b.header.chain_id ≠ mid.chain_id ∨ b.header.height ≠ mid.height
  · rw [if_pos hguard, if_pos hguard]
  · rw [if_neg hguard, if_neg hguard]
    exact messageByIdGoChecked_eq _ _

/-! ## C5 and C6 -/

/-- The `message_by_id` loop is lookup in the flattened message list. -/
theorem messageByIdGo_eq_flatten (L : List (List OutgoingMessage)) (i : Nat) :
    messageByIdGo L i = L.flatten.get? i := by
  induction L generalizing i with
  | nil => simp [messageByIdGo]
  | cons hd tl ih =>
    unfold messageByIdGo
    cases h : hd.get? i with
    | some m =>
      have hlt : i < hd.length := by
        by_contra hc
        rw [List.get?_eq_none.mpr (Nat.not_lt.mp hc)] at h
        exact Option.noConfusion h
      rw [List.flatten_cons, List.get?_append hlt, h]
    | none =>
      have hle : hd.length ≤ i := List.get?_eq_none.mp h
      rw [List.flatten_cons, List.get?_append_right hle]
      exact ih _

/-- Indexing the flattened list at the message-count sum of the first `t`
lists plus `j` is indexing list `t` at `j`. -/
theorem flatten_get_take_sum (L : List (List OutgoingMessage)) (t j : Nat)
    (ms : List OutgoingMessage) (ht : L.get? t = some ms) (hj : j < ms.length) :
    L.flatten.get? (((L.take t).map List.length).sum + j) = ms.get? j := by
  induction L generalizing t with
  | nil => exact Option.noConfusion ht
  | cons hd tl ih =>
    cases t with
    | zero =>
      have hms : hd = ms := Option.some.inj ht
      subst hms
      simp only [List.take_zero, List.map_nil, List.sum_nil, Nat.zero_add]
      rw [List.flatten_cons, List.get?_append hj]
    | succ t =>
      have ht' : tl.get? t = some ms := ht
      simp only [List.take_succ_cons, List.map_cons, List.sum_cons,
        List.flatten_cons]
      rw [Nat.add_assoc, List.get?_append_right (Nat.le_add_right _ _),
        Nat.add_sub_cancel_left]
      exact ih t ht'

/-- Splitting the total message count at transaction `t`. -/
theorem totalMessages_split (L : List (List OutgoingMessage)) (t : Nat)
    (ms : List OutgoingMessage) (ht : L.get? t = some ms) :
    ((L.take t).map List.length).sum + ms.length ≤ ((L.map List.length)).sum := by
  induction L generalizing t with
  | nil => exact Option.noConfusion ht
  | cons hd tl ih =>
    cases t with
    | zero =>
      have hms : hd = ms := Option.some.inj ht
      subst hms
      simp
    | succ t =>
      have ht' : tl.get? t = some ms := ht
      have := ih t ht'
      simp only [List.take_succ_cons, List.map_cons, List.sum_cons]
      omega

/-- `message_id_for_operation` on an in-range pair, under the machine-width
representability of the block. -/
theorem message_id_for_operation_some (b : Block) (oi mi : Nat)
    (hrep : b.totalMessages < U32) (hlen : b.body.messages.length < USIZE)
    (ms : List OutgoingMessage)
    (hms : b.body.messages.get? (b.body.incoming_bundles.length + oi) = some ms)
    (hmi : mi < ms.length) :
    b.message_id_for_operation oi mi =
      some ⟨b.header.chain_id, b.header.height,
        ((b.body.messages.take (b.body.incoming_bundles.length + oi)).map
          List.length).sum + mi⟩ := by
  have htlt : b.body.incoming_bundles.length + oi < b.body.messages.length := by
    by_contra hc
    rw [List.get?_eq_none.mpr (Nat.not_lt.mp hc)] at hms
    exact Option.noConfusion hms
  have hsplit := totalMessages_split b.body.messages
    (b.body.incoming_bundles.length + oi) ms hms
  have hrep' : (b.body.messages.map List.length).sum < 4294967296 := hrep
  have hlen' : b.body.messages.length < 18446744073709551616 := hlen
  unfold Block.message_id_for_operation
  rw [if_neg (show ¬ USIZE ≤ b.body.incoming_bundles.length + oi by
    unfold USIZE; omega)]
  simp only [hms]
  rw [if_neg (show ¬ U32 ≤ ms.length by unfold U32; omega)]
  rw [if_neg (Nat.not_le.mpr hmi)]
  rw [if_neg (show ¬ U32 ≤
      ((b.body.messages.take (b.body.incoming_bundles.length + oi)).map
        List.length).sum by unfold U32; omega)]
  rw [if_neg (show ¬ U32 ≤
      ((b.body.messages.take (b.body.incoming_bundles.length + oi)).map
        List.length).sum + mi by unfold U32; omega)]
  rfl

/-- `message_id_for_operation` on an out-of-range pair. -/
theorem message_id_for_operation_none (b : Block) (oi mi : Nat)
    (hrep : b.totalMessages < U32) (hlen : b.body.messages.length < USIZE)
    (hout : ∀ ms, b.body.messages.get? (b.body.incoming_bundles.length + oi)
      = some ms → ms.length ≤ mi) :
    b.message_id_for_operation oi mi = none := by
  unfold Block.message_id_for_operation
  by_cases husize : USIZE ≤ b.body.incoming_bundles.length + oi
  · rw [if_pos husize]
  · rw [if_neg husize]
    cases hms : b.body.messages.get? (b.body.incoming_bundles.length + oi) with
    | none => rfl
    | some ms =>
      have hle := hout ms hms
      simp only []
      by_cases hbig : U32 ≤ ms.length
      · rw [if_pos hbig]
      · rw [if_neg hbig, if_pos hle]

/-- C6: under the machine-width representability of the block (total message
count below `2^32`, transaction count below `2^64`),
`message_id_for_operation` returns `Some` of the message id whose flat index
equals `message_index` plus the total message count of all transactions
before transaction position `incoming_bundles.len() + operation_index`
exactly when that transaction exists and `message_index` is below its
message count, and returns `None` - not an error - otherwise. -/
theorem message_id_for_operation_spec (b : Block) (oi mi : Nat)
    (hrep : b.totalMessages < U32) (hlen : b.body.messages.length < USIZE) :
    (∀ ms, b.body.messages.get? (b.body.incoming_bundles.length + oi) = some ms →
      mi < ms.length →
      b.message_id_for_operation oi mi =
        some ⟨b.header.chain_id, b.header.height,
          ((b.body.messages.take (b.body.incoming_bundles.length + oi)).map
            List.length).sum + mi⟩) ∧
    ((∀ ms, b.body.messages.get? (b.body.incoming_bundles.length + oi) = some ms →
      ms.length ≤ mi) →
      b.message_id_for_operation oi mi = none) :=
  ⟨fun ms hms hmi => message_id_for_operation_some b oi mi hrep hlen ms hms hmi,
   fun hout => message_id_for_operation_none b oi mi hrep hlen hout⟩

/-- Witness for C6 on the sample block: the second message of the only
operation sits at flat index 2, and an out-of-range operation index yields
an empty result. -/
theorem message_id_for_operation_spec_witness :
    sampleBlock.message_id_for_operation 0 1 = some ⟨1, 2, 2⟩ ∧
    sampleBlock.message_id_for_operation 5 0 = none :=
  ⟨(message_id_for_operation_spec sampleBlock 0 1 (by decide) (by decide)).1
      [⟨20⟩, ⟨30⟩] (by decide) (by decide),
   (message_id_for_operation_spec sampleBlock 5 0 (by decide) (by decide)).2
      (fun _ hms => Option.noConfusion hms)⟩

/-- C5: composing `message_id_for_operation` with `message_by_id` on the same
block recovers exactly the addressed message for every in-range pair; for
every out-of-range pair `message_id_for_operation` is empty; and
`message_by_id` is empty for every id whose flat index is past the block's
messages. -/
theorem message_index_roundtrip (b : Block) (oi mi : Nat)
    (hrep : b.totalMessages < U32) (hlen : b.body.messages.length < USIZE) :
    (∀ ms, b.body.messages.get? (b.body.incoming_bundles.length + oi) = some ms →
      mi < ms.length →
      (b.message_id_for_operation oi mi).bind b.message_by_id = ms.get? mi) ∧
    ((∀ ms, b.body.messages.get? (b.body.incoming_bundles.length + oi) = some ms →
      ms.length ≤ mi) →
      b.message_id_for_operation oi mi = none) ∧
    (∀ mid : MessageId, b.totalMessages ≤ mid.index →
      b.message_by_id mid = none) := by
  refine ⟨?_, fun hout => message_id_for_operation_none b oi mi hrep hlen hout, ?_⟩
  · intro ms hms hmi
    rw [message_id_for_operation_some b oi mi hrep hlen ms hms hmi,
      Option.some_bind]
    unfold Block.message_by_id
    rw [if_neg (fun hcontra =>
      hcontra.elim (fun hne => hne rfl) (fun hne => hne rfl))]
    rw [messageByIdGo_eq_flatten]
    exact flatten_get_take_sum b.body.messages _ mi ms hms hmi
  · intro mid hidx
    unfold Block.message_by_id
    by_cases hguard : b.header.chain_id ≠ mid.chain_id ∨ b.header.height ≠ mid.height
    · rw [if_pos hguard]
    · rw [if_neg hguard, messageByIdGo_eq_flatten]
      refine List.get?_eq_none.mpr ?_
      rw [List.length_flatten]
      exact hidx

/-- Witness for C5 on the sample block: the round trip recovers message 30,
and a flat index past the three messages of the block finds nothing. -/
theorem message_index_roundtrip_witness :
    (sampleBlock.message_id_for_operation 0 1).bind sampleBlock.message_by_id
      = some ⟨30⟩ ∧
    sampleBlock.message_by_id ⟨1, 2, 99⟩ = none :=
  ⟨(message_index_roundtrip sampleBlock 0 1 (by decide) (by decide)).1
      [⟨20⟩, ⟨30⟩] (by decide) (by decide),
   (message_index_roundtrip sampleBlock 0 0 (by decide) (by decide)).2.2
      ⟨1, 2, 99⟩ (by decide)⟩

/-! ## C7 -/

/-- Decoding a lowercase hex digit undoes encoding it. -/
theorem hexDigitVal_hexDigitChar : ∀ n, n < 16 →
    hexDigitVal (hexDigitChar n) = some n := by decide

/-- Hex-decoding undoes hex-encoding on byte lists. -/
theorem hexDecodeGo_hexEncode (bs : List Nat) (h : ∀ b ∈ bs, b < 256) :
    hexDecodeGo (bs.flatMap
      (fun b => [hexDigitChar (b / 16), hexDigitChar (b % 16)])) = some bs := by
  induction bs with
  | nil => rfl
  | cons b t ih =>
    have hb : b < 256 := h b (List.mem_cons_self _ _)
    have h1 : b / 16 < 16 := Nat.div_lt_of_lt_mul hb
    have h2 : b % 16 < 16 := Nat.mod_lt _ (by norm_num)
    have ht : hexDecodeGo (t.flatMap
        (fun b => [hexDigitChar (b / 16), hexDigitChar (b % 16)])) = some t :=
      ih (fun x hx => h x (List.mem_cons_of_mem _ hx))
    simp only [List.flatMap_cons, List.cons_append, List.nil_append]
    unfold hexDecodeGo
    rw [hexDigitVal_hexDigitChar _ h1, hexDigitVal_hexDigitChar _ h2, ht]
    show some ((16 * (b / 16) + b % 16) :: t) = some (b :: t)
    rw [Nat.div_add_mod]

/-- `hex::decode` undoes `hex::encode`. -/
theorem hexDecode_hexEncode (bs : List Nat) (h : ∀ b ∈ bs, b < 256) :
    hexDecode (hexEncode bs) = some bs :=
  hexDecodeGo_hexEncode bs h

/-- Every encoded hex digit is a lowercase hex character. -/
theorem hexDigitChar_mem : ∀ n, n < 16 →
    (("0123456789abcdef".toList).contains (hexDigitChar n)) = true := by decide

/-- `hex::encode` produces only lowercase hex characters. -/
theorem isLowercaseHex_hexEncode (bs : List Nat) (h : ∀ b ∈ bs, b < 256) :
    isLowercaseHex (hexEncode bs) = true := by
  unfold isLowercaseHex hexEncode
  show (bs.flatMap
    (fun b => [hexDigitChar (b / 16), hexDigitChar (b % 16)])).all _ = true
  induction bs with
  | nil => rfl
  | cons b t ih =>
    have hb : b < 256 := h b (List.mem_cons_self _ _)
    have h1 : b / 16 < 16 := Nat.div_lt_of_lt_mul hb
    have h2 : b % 16 < 16 := Nat.mod_lt _ (by norm_num)
    simp only [List.flatMap_cons, List.all_append, List.all_cons, List.all_nil,
      Bool.and_eq_true]
    refine ⟨⟨hexDigitChar_mem _ h1, hexDigitChar_mem _ h2, trivial⟩, ?_⟩
    have := ih (fun x hx => h x (List.mem_cons_of_mem _ hx))
    simpa using this

/-- Base-256 digits are bytes. -/
theorem digits256_lt (n : Nat) : ∀ b ∈ Nat.digits 256 n, b < 256 :=
  fun _ hb => Nat.digits_lt_base (by norm_num) hb

/-- A value below `256 ^ 33` has at most 33 base-256 digits. -/
theorem digits256_len_le (v : Nat) (h : v < 256 ^ 33) :
    (Nat.digits 256 v).length ≤ 33 := by
  rcases Nat.eq_zero_or_pos v with hv | hv
  · subst hv; simp
  · have hne : v ≠ 0 := Nat.pos_iff_ne_zero.mp hv
    have hlog := Nat.log_lt_of_lt_pow hne h
    rw [Nat.digits_len 256 v (by norm_num) hne]
    omega

/-- Zero padding contributes nothing to the digit value. -/
theorem ofDigits_replicate_zero (n : Nat) :
    Nat.ofDigits 256 (List.replicate n 0) = 0 := by
  induction n with
  | zero => rfl
  | succ n ih =>
    rw [List.replicate_succ, Nat.ofDigits_cons, ih]

/-- The compact key bytes are bytes. -/
theorem pkSerialize_lt (pk : Secp256k1PublicKey) :
    ∀ b ∈ pkSerialize pk, b < 256 := by
  intro b hb
  unfold pkSerialize at hb
  rcases List.mem_append.mp hb with hmem | hmem
  · exact Nat.digits_lt_base (by norm_num) hmem
  · rw [List.eq_of_mem_replicate hmem]; norm_num

/-- `from_slice` undoes the compact serialization of a representable key. -/
theorem pkFromSlice_pkSerialize (pk : Secp256k1PublicKey)
    (h : pk.val < 256 ^ 33) : pkFromSlice (pkSerialize pk) = some pk := by
  have hlen := digits256_len_le pk.val h
  unfold pkFromSlice pkSerialize
  rw [if_pos (by simp [List.length_replicate]; omega)]
  rw [Nat.ofDigits_append, Nat.ofDigits_digits, ofDigits_replicate_zero]
  simp

/-- Decoding an encoded string code restores the string. -/
theorem stringOfNat_natOfString (s : String) :
    stringOfNat (natOfString s) = some s := by
  unfold stringOfNat natOfString
  rw [Encodable.encodek]
  show some (String.mk ((s.toList.map Char.toNat).map Char.ofNat)) = some s
  rw [List.map_map,
    show s.toList.map (Char.ofNat ∘ Char.toNat) = s.toList.map id from
      List.map_congr_left (fun c _ => Char.ofNat_toNat c),
    List.map_id]
  rfl

/-- Decoding an encoded hash code restores the hash. -/
theorem hashOfNat_natOfHash (h : CryptoHash) :
    hashOfNat (natOfHash h) = some h := by
  unfold hashOfNat natOfHash
  rw [Nat.unpair_pair]
  simp [stringOfNat_natOfString, Encodable.encodek]

/-- The DER bytes are bytes. -/
theorem sigSerializeDer_lt (sig : Secp256k1Signature) :
    ∀ b ∈ sigSerializeDer sig, b < 256 :=
  fun _ hb => Nat.digits_lt_base (by norm_num) hb

/-- `from_der` undoes `serialize_der`. -/
theorem sigFromDer_sigSerializeDer (sig : Secp256k1Signature) :
    sigFromDer (sigSerializeDer sig) = some sig := by
  unfold sigFromDer sigSerializeDer
  rw [Nat.ofDigits_digits]
  simp [Nat.unpair_pair, hashOfNat_natOfHash]

/-- C7: for a representable public key and any signature, the human-readable
serialization is a lowercase hexadecimal string (of the 33-byte compact key,
resp. of the DER signature bytes) that deserializes back to the original
value, and the compact binary serialization wraps the raw key/signature
structure in a named newtype and deserializes back to the original value. -/
theorem serde_roundtrip (pk : Secp256k1PublicKey) (sig : Secp256k1Signature)
    (hpk : pk.val < 256 ^ 33) :
    isLowercaseHex pk.serializeHuman = true ∧
    Secp256k1PublicKey.deserializeHuman pk.serializeHuman = .ok pk ∧
    Secp256k1PublicKey.deserializeBinary pk.serializeBinary = .ok pk ∧
    isLowercaseHex sig.serializeHuman = true ∧
    Secp256k1Signature.deserializeHuman sig.serializeHuman = .ok sig ∧
    Secp256k1Signature.deserializeBinary sig.serializeBinary = .ok sig := by
  refine ⟨?_, ?_, ?_, ?_, ?_, ?_⟩
  · exact isLowercaseHex_hexEncode _ (pkSerialize_lt pk)
  · unfold Secp256k1PublicKey.deserializeHuman Secp256k1PublicKey.serializeHuman
    rw [hexDecode_hexEncode _ (pkSerialize_lt pk)]
    simp only []
    rw [pkFromSlice_pkSerialize pk hpk]
  · unfold Secp256k1PublicKey.deserializeBinary Secp256k1PublicKey.serializeBinary
    simp only []
    rw [if_pos trivial, pkFromSlice_pkSerialize pk hpk]
  · exact isLowercaseHex_hexEncode _ (sigSerializeDer_lt sig)
  · unfold Secp256k1Signature.deserializeHuman Secp256k1Signature.serializeHuman
    rw [hexDecode_hexEncode _ (sigSerializeDer_lt sig)]
    simp only []
    rw [sigFromDer_sigSerializeDer sig]
  · unfold Secp256k1Signature.deserializeBinary Secp256k1Signature.serializeBinary
    simp only []
    rw [if_pos trivial, sigFromDer_sigSerializeDer sig]

/-- Witness for C7 at the public key 5 and a concrete signature. -/
theorem serde_roundtrip_witness :
    (5 : Nat) < 256 ^ 33 ∧
    (isLowercaseHex (Secp256k1PublicKey.serializeHuman ⟨5⟩) = true ∧
     Secp256k1PublicKey.deserializeHuman
       (Secp256k1PublicKey.serializeHuman ⟨5⟩) = .ok ⟨5⟩ ∧
     Secp256k1PublicKey.deserializeBinary
       (Secp256k1PublicKey.serializeBinary ⟨5⟩) = .ok ⟨5⟩ ∧
     isLowercaseHex (Secp256k1Signature.serializeHuman ⟨⟨"", []⟩, 1⟩) = true ∧
     Secp256k1Signature.deserializeHuman
       (Secp256k1Signature.serializeHuman ⟨⟨"", []⟩, 1⟩) = .ok ⟨⟨"", []⟩, 1⟩ ∧
     Secp256k1Signature.deserializeBinary
       (Secp256k1Signature.serializeBinary ⟨⟨"", []⟩, 1⟩) = .ok ⟨⟨"", []⟩, 1⟩) :=
  ⟨by norm_num, serde_roundtrip ⟨5⟩ ⟨⟨"", []⟩, 1⟩ (by norm_num)⟩

end LineraSpec
